import Mathlib

/-!
Shallow embedding of the PyTabular `Tabular` facade
(`pytabular/pytabular.py`, `pytabular/table.py`) over the wrapped
Microsoft Analysis Services Tabular object model.  Native objects
(tables, partitions, columns, measures, hierarchies, relationships,
roles, databases) are modelled structurally; native engine calls that
the Python code merely forwards to are either parameters of the
embedded functions or recorded in an explicit call trace.
-/

namespace PyTabular

/-- A native Column: its name and whether it is the implicit row-number
column (`ColumnType.RowNumber`). -/
structure TabColumn where
  name : String
  isRowNumber : Bool
deriving Repr, DecidableEq

/-- A native Partition: its name and its `RefreshedTime` (modelled as a
tick count, which is how the native value is ordered). -/
structure TabPartition where
  name : String
  refreshedTime : Nat
deriving Repr, DecidableEq

/-- A native Measure. -/
structure TabMeasure where
  name : String
deriving Repr, DecidableEq

/-- A native Hierarchy. -/
structure TabHierarchy where
  name : String
deriving Repr, DecidableEq

/-- A native Table with its nested collections. -/
structure TabTable where
  name : String
  columns : List TabColumn
  partitions : List TabPartition
  measures : List TabMeasure
  hierarchies : List TabHierarchy
deriving Repr, DecidableEq

/-- A native single-column Relationship.  In the native model the
`FromTable`/`ToTable` properties are derived from the endpoint columns;
here the endpoint table and column names are stored directly, and the
`set_FromColumn`/`set_ToColumn` calls update both. -/
structure TabRelationship where
  name : String
  fromTable : String
  fromColumn : String
  toTable : String
  toColumn : String
deriving Repr, DecidableEq

/-- A native TablePermission: its `Name` mirrors the referenced table's
name (`set_Table` changes it), and its column permissions are identified
by their column names (`set_Column` changes those). -/
structure TabTablePermission where
  tableName : String
  columnNames : List String
deriving Repr, DecidableEq

/-- A native Role with its table permissions. -/
structure TabRole where
  name : String
  tablePermissions : List TabTablePermission
deriving Repr, DecidableEq

/-- The native Model graph reachable from the facade. -/
structure TabModel where
  tables : List TabTable
  relationships : List TabRelationship
  roles : List TabRole
deriving Repr, DecidableEq

/-- A native Database, identified by name. -/
structure TabDatabase where
  name : String
deriving Repr, DecidableEq

/-- Modelled from the spec: `logic_utils.remove_suffix` is imported by
`pytabular.py` but `logic_utils.py` is not among the sources; per its
call sites (stripping the literal `_backup` marker) it removes `sfx`
from the end of `s` when `s` ends with it and returns `s` unchanged
otherwise. -/
def remove_suffix (s sfx : String) : String :=
  if sfx.data.isSuffixOf s.data then
    String.mk (s.data.take (s.data.length - sfx.data.length))
  else s

/-- Python renders `None` as the string "None" inside an f-string. -/
def pyStrOfCatalog : Option String → String
  | some s => s
  | none => "None"

/-- Database selection in `Tabular.__init__`: the list comprehension
keeps the databases whose `Name` equals the catalog (every database when
the catalog is `None`), and indexing `[0]` takes the first; an empty
result raises, which the `except` turns into the
"Unable to find Database..." exception. -/
def selectDatabase (catalog : Option String) (dbs : List TabDatabase) :
    Except String TabDatabase :=
  match dbs.filter (fun d => catalog == some d.name || catalog == none) with
  | [] => Except.error ("Unable to find Database... " ++ pyStrOfCatalog catalog)
  | d :: _ => Except.ok d

/-- A row of the `$SYSTEM.DISCOVER_JOBS` DMV rowset; only the
JOB_DESCRIPTION column is inspected by the code. -/
structure JobRow where
  job_description : String
  jobId : Nat
deriving Repr, DecidableEq

/-- `Tabular.is_process`: queries the DISCOVER_JOBS DMV (the facade
query, modelled by the `dmv` parameter) and reports whether the filtered
frame of rows with JOB_DESCRIPTION equal to "Process" is nonempty. -/
def is_process (dmv : String → List JobRow) : Bool :=
  let jobs_df := dmv "select * from $SYSTEM.DISCOVER_JOBS"
  decide (0 < (jobs_df.filter (fun r => r.job_description == "Process")).length)

/-- Whether the character list starts with `pat` (helper for Python's
substring containment test). -/
def chStarts : List Char → List Char → Bool
  | [], _ => true
  | _ :: _, [] => false
  | p :: ps, c :: cs => p == c && chStarts ps cs

/-- Whether `pat` occurs contiguously inside the character list
(Python's `pat in s` on strings). -/
def chContains (pat : List Char) : List Char → Bool
  | [] => chStarts pat []
  | c :: cs => chStarts pat (c :: cs) || chContains pat cs

/-- Python's `pat in hay` substring test on strings. -/
def strContains (hay pat : String) : Bool :=
  chContains pat.data hay.data

/-- Python `str.split` with a single-character separator, on character
lists: splitting the empty string yields one empty piece. -/
def splitChar (sep : Char) : List Char → List (List Char)
  | [] => [[]]
  | c :: cs =>
    if c == sep then [] :: splitChar sep cs
    else
      match splitChar sep cs with
      | [] => [[c]]
      | l :: ls => (c :: l) :: ls

/-- Python `raw_output.split("\n")`. -/
def pySplit (s : String) (sep : Char) : List String :=
  (splitChar sep s.data).map String.mk

/-- `Tabular.analyze_bpa` after the subprocess communicates: a nonempty
stderr is returned as-is, otherwise stdout is split on newlines and the
lines mentioning "violates rule" are returned. -/
def analyze_bpa (raw_output error : String) : String ⊕ List String :=
  if 0 < error.length then Sum.inl error
  else
    Sum.inr
      ((pySplit raw_output '\n').filter (fun output => strContains output "violates rule"))

/-! Helper lemmas -/

theorem head?_filter (p : α → Bool) (l : List α) :
    (l.filter p).head? = l.find? p := by
  induction l with
  | nil => rfl
  | cons a t ih =>
    by_cases h : p a = true
    · simp [List.filter_cons, List.find?, h]
    · simp only [Bool.not_eq_true] at h
      simp [List.filter_cons, List.find?, h, ih]

theorem chStarts_iff (pat : List Char) :
    ∀ l, chStarts pat l = true ↔ ∃ t, l = pat ++ t := by
  induction pat with
  | nil =>
    intro l
    simp [chStarts]
  | cons p ps ih =>
    intro l
    cases l with
    | nil =>
      simp [chStarts]
    | cons c cs =>
      simp only [chStarts, Bool.and_eq_true, beq_iff_eq, ih cs, List.cons_append,
        List.cons.injEq]
      constructor
      · rintro ⟨rfl, t, rfl⟩
        exact ⟨t, rfl, rfl⟩
      · rintro ⟨t, rfl, rfl⟩
        exact ⟨rfl, t, rfl⟩

theorem chContains_iff (pat : List Char) :
    ∀ l, chContains pat l = true ↔ ∃ s t, l = s ++ pat ++ t := by
  intro l
  induction l with
  | nil =>
    simp only [chContains, chStarts_iff]
    constructor
    · rintro ⟨t, ht⟩
      exact ⟨[], t, by simpa using ht⟩
    · rintro ⟨s, t, hst⟩
      have h : s = [] ∧ pat = [] ∧ t = [] := by simpa using hst.symm
      exact ⟨[], by simp [h.2.1]⟩
  | cons c cs ih =>
    simp only [chContains, Bool.or_eq_true, chStarts_iff, ih]
    constructor
    · rintro (⟨t, ht⟩ | ⟨s, t, hst⟩)
      · exact ⟨[], t, by simpa using ht⟩
      · exact ⟨c :: s, t, by simp [hst]⟩
    · rintro ⟨s, t, hst⟩
      cases s with
      | nil =>
        exact Or.inl ⟨t, by simpa using hst⟩
      | cons x xs =>
        simp only [List.cons_append, List.cons.injEq] at hst
        exact Or.inr ⟨xs, t, by simp [hst.2]⟩

/-! Claim theorems (first group) -/

/-- C6: `Tabular.__init__` selects the database whose `Name` equals the
connection's catalog, or the first enumerated database when the catalog
is `None`, and raises an exception whose message names the missing
catalog when no database matches. -/
theorem init_database_selection (catalog : Option String) (dbs : List TabDatabase) :
    (catalog = none → ∀ d rest, dbs = d :: rest → selectDatabase catalog dbs = Except.ok d)
    ∧ (catalog = none → dbs = [] →
        selectDatabase catalog dbs = Except.error "Unable to find Database... None")
    ∧ (∀ c, catalog = some c → (∀ d ∈ dbs, d.name ≠ c) →
        selectDatabase catalog dbs = Except.error ("Unable to find Database... " ++ c))
    ∧ (∀ c, catalog = some c → ∀ d, dbs.find? (fun d => d.name == c) = some d →
        selectDatabase catalog dbs = Except.ok d) := by
  refine ⟨?_, ?_, ?_, ?_⟩
  · rintro rfl d rest rfl
    simp [selectDatabase]
  · rintro rfl rfl
    simp [selectDatabase, pyStrOfCatalog]
  · rintro c rfl hnone
    unfold selectDatabase
    have hfil : dbs.filter (fun d => (some c : Option String) == some d.name || (some c : Option String) == none) = [] := by
      rw [List.filter_eq_nil_iff]
      intro d hd
      simp [Ne.symm (hnone d hd)]
    rw [hfil]
    rfl
  · rintro c rfl d hfind
    have hcongr :
        dbs.filter (fun d => (some c : Option String) == some d.name || (some c : Option String) == none)
          = dbs.filter (fun d => d.name == c) := by
      apply List.filter_congr
      intro x _
      by_cases h : x.name = c
      · simp [h]
      · simp [h, Ne.symm h]
    have hhead : (dbs.filter (fun d => d.name == c)).head? = some d := by
      rw [head?_filter]
      exact hfind
    unfold selectDatabase
    rw [hcongr]
    cases hf : dbs.filter (fun d => d.name == c) with
    | nil => rw [hf] at hhead; simp at hhead
    | cons x xs =>
      rw [hf] at hhead
      simp only [List.head?_cons, Option.some.injEq] at hhead
      exact congrArg Except.ok hhead

/-- Closed-form check of C6 at concrete inputs. -/
theorem init_database_selection_witness :
    selectDatabase none [⟨"A"⟩, ⟨"B"⟩] = Except.ok ⟨"A"⟩
    ∧ selectDatabase (some "B") [⟨"A"⟩, ⟨"B"⟩] = Except.ok ⟨"B"⟩
    ∧ selectDatabase (some "C") [⟨"A"⟩, ⟨"B"⟩]
        = Except.error "Unable to find Database... C" := by
  refine ⟨?_, ?_, ?_⟩
  · exact (init_database_selection none [⟨"A"⟩, ⟨"B"⟩]).1 rfl ⟨"A"⟩ [⟨"B"⟩] rfl
  · exact (init_database_selection (some "B") [⟨"A"⟩, ⟨"B"⟩]).2.2.2 "B" rfl ⟨"B"⟩ (by decide)
  · exact (init_database_selection (some "C") [⟨"A"⟩, ⟨"B"⟩]).2.2.1 "C" rfl (by decide)

/-- C7: `is_process` returns `true` exactly when the DISCOVER_JOBS DMV
result has a row whose JOB_DESCRIPTION is "Process". -/
theorem is_process_iff_job (dmv : String → List JobRow) :
    is_process dmv = true ↔
      ∃ r ∈ dmv "select * from $SYSTEM.DISCOVER_JOBS", r.job_description = "Process" := by
  simp only [is_process, decide_eq_true_eq, List.length_pos]
  rw [Ne, List.filter_eq_nil_iff]
  push_neg
  simp [Bool.not_eq_true]

/-- C8: `analyze_bpa` (after the subprocess communicates) returns the
stderr text when the subprocess wrote anything to stderr, and otherwise
the list of stdout lines containing the substring "violates rule";
`strContains` is characterised as genuine substring containment. -/
theorem analyze_bpa_output (raw_output error : String) :
    (error ≠ "" → analyze_bpa raw_output error = Sum.inl error)
    ∧ (error = "" →
        analyze_bpa raw_output error =
          Sum.inr ((pySplit raw_output '\n').filter
            (fun output => strContains output "violates rule")))
    ∧ ∀ hay pat : String, strContains hay pat = true ↔
        ∃ s t, hay.data = s ++ pat.data ++ t := by
  refine ⟨?_, ?_, ?_⟩
  · intro h
    have hlen : 0 < error.length := by
      rcases error with ⟨L⟩
      cases L with
      | nil => exact absurd rfl h
      | cons a L => simp [String.length]
    simp [analyze_bpa, hlen]
  · rintro rfl
    rfl
  · intro hay pat
    unfold strContains
    exact chContains_iff pat.data hay.data

/-- Closed-form check of C8 at concrete inputs. -/
theorem analyze_bpa_output_witness :
    analyze_bpa "model violates rule X\nfine line" "" = Sum.inr ["model violates rule X"]
    ∧ analyze_bpa "whatever" "boom" = Sum.inl "boom" := by
  constructor
  · have h := (analyze_bpa_output "model violates rule X\nfine line" "").2.1 rfl
    rw [h]
    decide
  · exact (analyze_bpa_output "whatever" "boom").1 (by decide)

/-! String lemmas used by the backup and revert developments -/

theorem remove_suffix_append (s sfx : String) :
    remove_suffix (s ++ sfx) sfx = s := by
  unfold remove_suffix
  have hsuf : sfx.data.isSuffixOf (s.data ++ sfx.data) = true := by
    rw [List.isSuffixOf_iff_suffix]
    exact ⟨s.data, rfl⟩
  simp only [String.data_append, hsuf, if_true, List.length_append,
    Nat.add_sub_cancel, List.take_left]

theorem string_append_backup_ne (s : String) : s ++ "_backup" ≠ s := by
  intro h
  have hd : s.data = s.data ++ ("_backup" : String).data := by
    conv_lhs => rw [← congrArg String.data h]
    rw [String.data_append]
  have hnil : ("_backup" : String).data = [] := List.self_eq_append_right.mp hd
  exact absurd hnil (by decide)

theorem string_append_right_cancel {a b sfx : String} (h : a ++ sfx = b ++ sfx) :
    a = b := by
  have hd := congrArg String.data h
  rw [String.data_append, String.data_append] at hd
  have hx := List.append_cancel_right hd
  exact congrArg String.mk hx

/-! Embedding of `Tabular.query` and the effective-user connection cache -/

/-- A dict from effective-user name to a Connection identity. -/
abbrev EffDict := List (String × Nat)

/-- The Python instance-attribute slots relevant to the effective-user
cache, keyed by exact attribute name. -/
abbrev AttrStore := List (String × EffDict)

/-- Attribute read (`getattr` by exact name); `none` models the
AttributeError raised when the name is absent. -/
def attrGet (st : AttrStore) (attr : String) : Option EffDict :=
  (st.find? (fun kv => kv.1 == attr)).map (fun kv => kv.2)

/-- Attribute write (`setattr`): overwrites the slot or creates it. -/
def attrSet : AttrStore → String → EffDict → AttrStore
  | [], attr, v => [(attr, v)]
  | kv :: rest, attr, v =>
    if kv.1 == attr then (attr, v) :: rest else kv :: attrSet rest attr v

/-- Dict item read; `none` models the KeyError on a missing key. -/
def dictGet (d : EffDict) (k : String) : Option Nat :=
  (d.find? (fun kv => kv.1 == k)).map (fun kv => kv.2)

/-- Dict item write. -/
def dictSet : EffDict → String → Nat → EffDict
  | [], k, v => [(k, v)]
  | kv :: rest, k, v =>
    if kv.1 == k then (k, v) :: rest else kv :: dictSet rest k v

/-- The facade state that `Tabular.query` touches: the identity of the
AdomdConnection built in `__init__`, the attribute slots holding
effective-user dicts, and a counter supplying the identity of the next
`Connection(...)` constructed. -/
structure QueryState where
  adomd : Nat
  attrs : AttrStore
  nextConn : Nat
deriving Repr, DecidableEq

/-- The attribute slots right after `Tabular.__init__`, which runs
`self.Effective_Users = {}` and creates no other effective-user slot. -/
def initAttrs : AttrStore := attrSet [] "Effective_Users" []

/-- The query-relevant facade state right after `__init__`. -/
def initState (adomd n : Nat) : QueryState := ⟨adomd, initAttrs, n⟩

/-- `Tabular.query`: with no effective user it returns the
AdomdConnection's result unchanged.  With an effective user it looks up
`self.effective_users[effective_user]` (a missing attribute or key
raises, which the bare `except` catches) and on failure constructs a new
`Connection` and stores it via `self.effective_Users[effective_user]`.
`connQuery c q` stands for the native result of running query `q` on
connection `c`; `Connection(...)` construction is modelled by the fresh
identity counter.  The store is modelled as writing the attribute slot
named `effective_Users` (the attribute dispatch of the missing
`object.py` is not among the sources). -/
def Tabular.query {R : Type} (connQuery : Nat → String → R) (st : QueryState)
    (query_str : String) (effective_user : Option String) : R × QueryState :=
  match effective_user with
  | none => (connQuery st.adomd query_str, st)
  | some u =>
    match (attrGet st.attrs "effective_users").bind (fun d => dictGet d u) with
    | some conn => (connQuery conn query_str, st)
    | none =>
      let conn := st.nextConn
      (connQuery conn query_str,
        { st with
            attrs := attrSet st.attrs "effective_Users"
              (dictSet ((attrGet st.attrs "effective_Users").getD []) u conn)
            nextConn := st.nextConn + 1 })

/-- Spec-side statement of the no-effective-user path, from the spec's
words: `query` forwards DAX strings to a native connection and returns
the native result. -/
def query_spec {R : Type} (connQuery : Nat → String → R) (st : QueryState)
    (query_str : String) : R :=
  connQuery st.adomd query_str

/-- Runs a sequence of effective-user queries, recording which
Connection identity served each call. -/
def runEffective (st : QueryState) : List String → List Nat
  | [] => []
  | u :: us =>
    let step := Tabular.query (fun c _ => c) st "EVALUATE ROW(\"a\",1)" (some u)
    step.1 :: runEffective step.2 us

/-! Claim theorems (query group) -/

/-- C1: with `effective_user = None`, `Tabular.query` returns exactly
the wrapped ADOMD connection's result on the same string — for every
possible native query behaviour — and leaves the facade state
untouched. -/
theorem query_none_is_adomd_passthrough {R : Type} (connQuery : Nat → String → R)
    (st : QueryState) (query_str : String) :
    Tabular.query connQuery st query_str none = (query_spec connQuery st query_str, st) :=
  rfl

theorem attrGet_cons (kv : String × EffDict) (rest : AttrStore) (b : String) :
    attrGet (kv :: rest) b = if kv.1 == b then some kv.2 else attrGet rest b := by
  simp only [attrGet, List.find?]
  cases h : kv.1 == b <;> simp [h]

theorem attrGet_attrSet_ne (st : AttrStore) (a b : String) (v : EffDict)
    (h : a ≠ b) : attrGet (attrSet st a v) b = attrGet st b := by
  have hab : (a == b) = false := beq_eq_false_iff_ne.mpr h
  induction st with
  | nil =>
    simp [attrSet, attrGet_cons, hab, attrGet]
  | cons kv rest ih =>
    by_cases hk : kv.1 = a
    · have hkb : (kv.1 == b) = false := beq_eq_false_iff_ne.mpr (by rw [hk]; exact h)
      have hka : (kv.1 == a) = true := beq_iff_eq.mpr hk
      simp [attrSet, hka, attrGet_cons, hab, hkb]
    · have hka : (kv.1 == a) = false := beq_eq_false_iff_ne.mpr hk
      simp [attrSet, hka, attrGet_cons, ih]

theorem map_add_range_succ (c k : Nat) :
    (List.range (k + 1)).map (c + ·) = c :: (List.range k).map (c + 1 + ·) := by
  rw [List.range_succ_eq_map, List.map_cons, List.map_map]
  simp only [Nat.add_zero]
  congr 1
  apply List.map_congr_left
  intro x _
  simp only [Function.comp_apply]
  omega

/-- C10: from the state `__init__` leaves behind, every effective-user
query constructs a brand-new `Connection` (the identities served are the
successive fresh ones), because the cache lookup reads attribute
`effective_users` while stores only ever touch `effective_Users` and
`__init__` only created `Effective_Users`. -/
theorem effective_user_connection_never_cached (users : List String) (adomd n : Nat) :
    runEffective (initState adomd n) users = (List.range users.length).map (n + ·) := by
  have key : ∀ us : List String, ∀ st : QueryState,
      attrGet st.attrs "effective_users" = none →
      runEffective st us = (List.range us.length).map (st.nextConn + ·) := by
    intro us
    induction us with
    | nil => intro st _; rfl
    | cons u rest ih =>
      intro st hmiss
      have hstep :
          runEffective st (u :: rest) =
            st.nextConn ::
              runEffective
                { st with
                    attrs := attrSet st.attrs "effective_Users"
                      (dictSet ((attrGet st.attrs "effective_Users").getD []) u st.nextConn)
                    nextConn := st.nextConn + 1 } rest := by
        simp [runEffective, Tabular.query, hmiss]
      rw [hstep, ih _ (by
        rw [attrGet_attrSet_ne _ _ _ _ (by decide)]
        exact hmiss)]
      simp only [List.length_cons]
      rw [map_add_range_succ]
  exact key users (initState adomd n) rfl

/-! Embedding of `reload_model_info` and the wrapper collections -/

/-- The `PyTable` wrapper built in `PyTable.__init__`: it keeps the
native table and materialises wrapper collections for its partitions,
columns and measures by enumerating the native ones. -/
structure PyTable where
  table : TabTable
  partitions : List TabPartition
  columns : List TabColumn
  measures : List TabMeasure
deriving Repr, DecidableEq

/-- `PyTable.__init__` on a native table. -/
def PyTable.build (t : TabTable) : PyTable :=
  ⟨t, t.partitions, t.columns, t.measures⟩

/-- The facade collections rebuilt by `reload_model_info`. -/
structure Facade where
  tables : List PyTable
  relationships : List TabRelationship
  partitions : List TabPartition
  columns : List TabColumn
  measures : List TabMeasure
deriving Repr, DecidableEq

/-- `Tabular.reload_model_info`: refreshes the database (a native call)
and rebuilds the wrapper collections by traversing the native model; the
flat Partitions, Columns and Measures lists come from the nested list
comprehensions over the rebuilt Tables, and the method returns True. -/
def reload_model_info (m : TabModel) : Facade × Bool :=
  let tables := m.tables.map PyTable.build
  ({ tables := tables
     relationships := m.relationships
     partitions := (tables.map (fun t => t.partitions)).flatten
     columns := (tables.map (fun t => t.columns)).flatten
     measures := (tables.map (fun t => t.measures)).flatten }, true)

/-- C5: after `reload_model_info` the facade's Partitions, Columns and
Measures are exactly the concatenations, in table order, of the
per-table collections of the rebuilt Tables (which wrap the native
tables one-to-one), and the method returns True. -/
theorem reload_model_info_flattens (m : TabModel) :
    (reload_model_info m).1.tables = m.tables.map PyTable.build
    ∧ (reload_model_info m).1.partitions
        = ((reload_model_info m).1.tables.map (fun t => t.partitions)).flatten
    ∧ (reload_model_info m).1.columns
        = ((reload_model_info m).1.tables.map (fun t => t.columns)).flatten
    ∧ (reload_model_info m).1.measures
        = ((reload_model_info m).1.tables.map (fun t => t.measures)).flatten
    ∧ (reload_model_info m).2 = true :=
  ⟨rfl, rfl, rfl, rfl, rfl⟩

/-! Embedding of `save_changes` -/

/-- A native property-change entry of `Impact.PropertyChanges`. -/
structure PropertyChange where
  newValue : String
  changedObject : String
  originalValue : String
  propertyName : String
  propertyType : String
deriving Repr, DecidableEq

/-- The native `ModelSaveResults.Impact`. -/
structure SaveImpact where
  propertyChanges : List PropertyChange
  addedObjects : List String
  addedSubtreeRoots : List String
  removedObjects : List String
  removedSubtreeRoots : List String
deriving Repr, DecidableEq

/-- The native `ModelSaveResults`. -/
structure SaveResult where
  impact : Option SaveImpact
  xmlaResults : String
deriving Repr, DecidableEq

/-- The `property_change` named tuple built inside `save_changes`. -/
structure PropertyChangeTuple where
  new_value : String
  changed_object : String
  original_value : String
  property_name : String
  property_type : String
deriving Repr, DecidableEq

/-- The `changes` named tuple returned by `save_changes` (the field
`removed_subtree_Roots` spells the source's field list). -/
structure Changes where
  property_changes : List PropertyChangeTuple
  added_objects : List String
  added_subtree_roots : List String
  removed_objects : List String
  removed_subtree_Roots : List String
  xmla_results : String
deriving Repr, DecidableEq

/-- The inner `property_changes` helper of `save_changes`. -/
def property_changes (property_changes_var : List PropertyChange) :
    List PropertyChangeTuple :=
  property_changes_var.map (fun change =>
    ⟨change.newValue, change.changedObject, change.originalValue,
      change.propertyName, change.propertyType⟩)

/-- Native engine calls issued by the facade, recorded in order. -/
inductive NCall where
  | reconnect
  | saveChanges
  | databaseRefresh
  | refreshTable (name : String)
deriving Repr, DecidableEq

/-- The slice of facade state that `save_changes` touches. -/
structure FacadeState where
  connected : Bool
  model : TabModel
  facade : Facade
deriving Repr, DecidableEq

/-- Outcome of `Tabular.save_changes`: the value returned, the updated
facade state and the trace of native calls. -/
structure SaveOutcome where
  result : Option Changes
  state : FacadeState
  calls : List NCall
deriving Repr, DecidableEq

/-- `Tabular.save_changes`: reconnects when `Server.Connected` is False,
invokes the native `Model.SaveChanges()` once (its outcome — the save
result and the possibly changed native model — is the parameter), and
either returns `None` on a `None` impact, leaving the cached wrapper
collections alone, or reloads the wrapper collections and packages the
impact fields and XMLA results into the `changes` named tuple. -/
def Tabular.save_changes (res : SaveResult) (modelAfter : TabModel)
    (st : FacadeState) : SaveOutcome :=
  let st1 := if st.connected = false then { st with connected := true } else st
  let calls1 : List NCall := if st.connected = false then [NCall.reconnect] else []
  let calls2 := calls1 ++ [NCall.saveChanges]
  match res.impact with
  | none =>
    { result := none
      state := { st1 with model := modelAfter }
      calls := calls2 }
  | some impact =>
    { result := some
        { property_changes := property_changes impact.propertyChanges
          added_objects := impact.addedObjects
          added_subtree_roots := impact.addedSubtreeRoots
          removed_objects := impact.removedObjects
          removed_subtree_Roots := impact.removedSubtreeRoots
          xmla_results := res.xmlaResults }
      state := { st1 with model := modelAfter, facade := (reload_model_info modelAfter).1 }
      calls := calls2 ++ [NCall.databaseRefresh] }

/-- C2: `save_changes` calls the native `SaveChanges` exactly once,
reconnects first exactly when the server is not connected, returns
`None` and keeps the cached collections on a `None` impact, and
otherwise reloads the wrapper collections and returns the named tuple
packaging the impact fields and the XMLA results. -/
theorem save_changes_behaviour (res : SaveResult) (modelAfter : TabModel)
    (st : FacadeState) :
    (Tabular.save_changes res modelAfter st).calls.count NCall.saveChanges = 1
    ∧ (st.connected = false →
        (Tabular.save_changes res modelAfter st).calls.head? = some NCall.reconnect)
    ∧ (st.connected = true →
        NCall.reconnect ∉ (Tabular.save_changes res modelAfter st).calls)
    ∧ (res.impact = none →
        (Tabular.save_changes res modelAfter st).result = none
        ∧ (Tabular.save_changes res modelAfter st).state.facade = st.facade)
    ∧ (∀ impact, res.impact = some impact →
        (Tabular.save_changes res modelAfter st).result = some
          { property_changes := property_changes impact.propertyChanges
            added_objects := impact.addedObjects
            added_subtree_roots := impact.addedSubtreeRoots
            removed_objects := impact.removedObjects
            removed_subtree_Roots := impact.removedSubtreeRoots
            xmla_results := res.xmlaResults }
        ∧ (Tabular.save_changes res modelAfter st).state.facade
            = (reload_model_info modelAfter).1) := by
  cases hc : st.connected <;> cases himp : res.impact <;>
    simp [Tabular.save_changes, hc, himp]

/-- Closed-form check of C2 at concrete inputs. -/
theorem save_changes_behaviour_witness :
    (Tabular.save_changes ⟨none, "x"⟩ ⟨[], [], []⟩
        ⟨true, ⟨[], [], []⟩, (reload_model_info ⟨[], [], []⟩).1⟩).result = none
    ∧ (Tabular.save_changes ⟨some ⟨[], ["o1"], [], [], []⟩, "x"⟩ ⟨[], [], []⟩
        ⟨false, ⟨[], [], []⟩, (reload_model_info ⟨[], [], []⟩).1⟩).result
        = some ⟨[], ["o1"], [], [], [], "x"⟩ := by
  constructor
  · exact ((save_changes_behaviour ⟨none, "x"⟩ ⟨[], [], []⟩
      ⟨true, ⟨[], [], []⟩, (reload_model_info ⟨[], [], []⟩).1⟩).2.2.2.1 rfl).1
  · exact ((save_changes_behaviour ⟨some ⟨[], ["o1"], [], [], []⟩, "x"⟩ ⟨[], [], []⟩
      ⟨false, ⟨[], [], []⟩, (reload_model_info ⟨[], [], []⟩).1⟩).2.2.2.2
        ⟨[], ["o1"], [], [], []⟩ rfl).1

/-! Embedding of `PyTable.Last_Refresh` and `PyTables.Last_Refresh` -/

/-- Modelled from the spec: `PyPartition.Last_Refresh` lives in the
missing `partition.py`; following the spec's pointer to the native
`Partition.RefreshedTime` property it returns the partition's refreshed
time. -/
def PyPartition.last_refresh (p : TabPartition) : Nat := p.refreshedTime

/-- Python `max` on a list of comparable values; the empty list raises
a ValueError, modelled as `none`. -/
def pyMax : List Nat → Option Nat
  | [] => none
  | x :: xs => some (xs.foldl Nat.max x)

/-- `PyTable.Last_Refresh`: queries each partition for the last refresh
time and selects the max. -/
def PyTable.last_refresh (t : TabTable) : Option Nat :=
  pyMax (t.partitions.map PyPartition.last_refresh)

/-- The data dict built by `PyTables.Last_Refresh`: the Tables,
Partitions and RefreshedTime columns, one row per partition, in table
order. -/
def lastRefreshRows (tabs : List TabTable) : List (String × String × Nat) :=
  (tabs.map (fun t =>
    t.partitions.map (fun p => (t.name, p.name, PyPartition.last_refresh p)))).flatten

/-- First-appearance deduplication of group keys. -/
def dedupFirst : List String → List String
  | [] => []
  | k :: rest => k :: (dedupFirst rest).filter (fun x => !(x == k))

/-- pandas `df[["Tables","RefreshedTime"]].groupby(by=["Tables"]).max()`
on the two relevant columns: one output row per distinct Tables key,
holding the maximum RefreshedTime of its group.  pandas emits groups
sorted by key; the claims are insensitive to row order, so groups are
listed here in first-appearance order. -/
def groupMax (rows : List (String × Nat)) : List (String × Nat) :=
  (dedupFirst (rows.map (fun r => r.1))).map (fun k =>
    (k, ((rows.filter (fun r => r.1 == k)).map (fun r => r.2)).foldl Nat.max 0))

/-- `PyTables.Last_Refresh`: with `group_partition` the Tables and
RefreshedTime columns are grouped by table and maxed; otherwise the
frame keeps one row per partition. -/
def PyTables.last_refresh (tabs : List TabTable) (group_partition : Bool) :
    List (String × String × Nat) ⊕ List (String × Nat) :=
  let rows := lastRefreshRows tabs
  if group_partition then
    Sum.inr (groupMax (rows.map (fun r => (r.1, r.2.2))))
  else Sum.inl rows

/-- The per-table maximum refresh time as the groupby computes it. -/
def tableMaxVal (t : TabTable) : Nat :=
  (t.partitions.map (fun p => p.refreshedTime)).foldl Nat.max 0

/-- The two-column rows the groupby consumes, as per-table blocks. -/
def groupRows (tabs : List TabTable) : List (String × Nat) :=
  (tabs.map (fun t => t.partitions.map (fun p => (t.name, p.refreshedTime)))).flatten

/-! Lemmas for the groupby development -/

theorem pyMax_eq_max? (l : List Nat) : pyMax l = l.max? := by
  cases l <;> rfl

theorem foldl_max_zero (x : Nat) (xs : List Nat) :
    (x :: xs).foldl Nat.max 0 = xs.foldl Nat.max x := by
  simp [List.foldl, Nat.zero_max]

theorem groupRows_cons (t : TabTable) (rest : List TabTable) :
    groupRows (t :: rest)
      = t.partitions.map (fun p => (t.name, p.refreshedTime)) ++ groupRows rest := by
  simp [groupRows]

theorem mem_groupRows_keys {tabs : List TabTable} {x : String × Nat}
    (hx : x ∈ groupRows tabs) : x.1 ∈ tabs.map (fun t => t.name) := by
  simp only [groupRows, List.mem_flatten, List.mem_map] at hx
  obtain ⟨l, ⟨t, ht, rfl⟩, hxl⟩ := hx
  obtain ⟨p, _, rfl⟩ := List.mem_map.mp hxl
  exact List.mem_map.mpr ⟨t, ht, rfl⟩

theorem mem_dedupFirst {l : List String} {x : String}
    (hx : x ∈ dedupFirst l) : x ∈ l := by
  induction l with
  | nil => simp [dedupFirst] at hx
  | cons k rest ih =>
    simp only [dedupFirst, List.mem_cons] at hx
    rcases hx with rfl | hx
    · exact List.mem_cons_self _ _
    · exact List.mem_cons_of_mem _ (ih (List.mem_of_mem_filter hx))

theorem dedupFirst_all_eq_append (k : String) :
    ∀ (l : List String), l ≠ [] → (∀ x ∈ l, x = k) → ∀ m : List String,
      dedupFirst (l ++ m) = k :: (dedupFirst m).filter (fun x => !(x == k)) := by
  intro l
  induction l with
  | nil => intro h; exact absurd rfl h
  | cons a rest ih =>
    intro _ hall m
    have ha : a = k := hall a (List.mem_cons_self _ _)
    cases hr : rest with
    | nil =>
      subst ha
      simp [dedupFirst]
    | cons b rest2 =>
      have hrest : rest ≠ [] := by rw [hr]; exact List.cons_ne_nil _ _
      have hallr : ∀ x ∈ rest, x = k := fun x hx =>
        hall x (List.mem_cons_of_mem _ hx)
      rw [← hr] at *
      subst ha
      rw [List.cons_append]
      have e1 : dedupFirst (a :: (rest ++ m))
          = a :: (dedupFirst (rest ++ m)).filter (fun x => !(x == a)) := rfl
      rw [e1, ih hrest hallr m]
      congr 1
      rw [List.filter_cons]
      simp [List.filter_filter]

theorem dedupFirst_groupRows :
    ∀ tabs : List TabTable, (tabs.map (fun t => t.name)).Nodup →
      (∀ t ∈ tabs, t.partitions ≠ []) →
      dedupFirst ((groupRows tabs).map (fun r => r.1))
        = tabs.map (fun t => t.name) := by
  intro tabs
  induction tabs with
  | nil => intro _ _; rfl
  | cons t rest ih =>
    intro hnodup hne
    have hblockne : t.partitions.map (fun p => ((t.name, p.refreshedTime) : String × Nat)) ≠ [] := by
      intro hcon
      exact hne t (List.mem_cons_self _ _) (List.map_eq_nil_iff.mp hcon)
    have hkeys :
        (groupRows (t :: rest)).map (fun r => r.1)
          = (t.partitions.map (fun p => ((t.name, p.refreshedTime) : String × Nat))).map (fun r => r.1)
            ++ (groupRows rest).map (fun r => r.1) := by
      rw [groupRows_cons, List.map_append]
    rw [hkeys]
    have hall : ∀ x ∈ (t.partitions.map (fun p => ((t.name, p.refreshedTime) : String × Nat))).map (fun r => r.1), x = t.name := by
      intro x hx
      simp only [List.map_map, List.mem_map, Function.comp] at hx
      obtain ⟨p, _, rfl⟩ := hx
      rfl
    have hblockkeysne :
        (t.partitions.map (fun p => ((t.name, p.refreshedTime) : String × Nat))).map (fun r => r.1) ≠ [] := by
      intro hcon
      exact hblockne (List.map_eq_nil_iff.mp hcon)
    rw [dedupFirst_all_eq_append t.name _ hblockkeysne hall]
    have hrest := ih (List.nodup_cons.mp hnodup).2
      (fun u hu => hne u (List.mem_cons_of_mem _ hu))
    rw [hrest]
    have hnotin : t.name ∉ rest.map (fun t => t.name) :=
      (List.nodup_cons.mp hnodup).1
    have : (rest.map (fun t => t.name)).filter (fun x => !(x == t.name))
        = rest.map (fun t => t.name) := by
      rw [List.filter_eq_self]
      intro x hx
      have : x ≠ t.name := by
        intro hcon
        exact hnotin (hcon ▸ hx)
      simp [this]
    rw [this]
    rfl

theorem groupMax_groupRows :
    ∀ tabs : List TabTable, (tabs.map (fun t => t.name)).Nodup →
      (∀ t ∈ tabs, t.partitions ≠ []) →
      groupMax (groupRows tabs) = tabs.map (fun t => (t.name, tableMaxVal t)) := by
  intro tabs
  induction tabs with
  | nil => intro _ _; rfl
  | cons t rest ih =>
    intro hnodup hne
    have hnotin : t.name ∉ rest.map (fun t => t.name) :=
      (List.nodup_cons.mp hnodup).1
    have hnodup2 := (List.nodup_cons.mp hnodup).2
    have hne2 : ∀ u ∈ rest, u.partitions ≠ [] :=
      fun u hu => hne u (List.mem_cons_of_mem _ hu)
    have hdedup := dedupFirst_groupRows (t :: rest) hnodup hne
    unfold groupMax
    rw [hdedup]
    set block := t.partitions.map (fun p => ((t.name, p.refreshedTime) : String × Nat)) with hblock
    have hrows : groupRows (t :: rest) = block ++ groupRows rest := groupRows_cons t rest
    have hblockall : ∀ x ∈ block, x.1 = t.name := by
      intro x hx
      obtain ⟨p, _, rfl⟩ := List.mem_map.mp hx
      rfl
    have hrestkeys : ∀ x ∈ groupRows rest, (x.1 == t.name) = false := by
      intro x hx
      have hk := mem_groupRows_keys hx
      have : x.1 ≠ t.name := by
        intro hcon
        exact hnotin (hcon ▸ hk)
      simp [this]
    simp only [List.map_cons]
    have hhead :
        ((groupRows (t :: rest)).filter (fun r => r.1 == t.name)).map (fun r => r.2)
          = t.partitions.map (fun p => p.refreshedTime) := by
      rw [hrows, List.filter_append]
      have h1 : block.filter (fun r => r.1 == t.name) = block := by
        rw [List.filter_eq_self]
        intro a ha
        simp [hblockall a ha]
      have h2 : (groupRows rest).filter (fun r => r.1 == t.name) = [] := by
        rw [List.filter_eq_nil_iff]
        intro a ha
        simp [hrestkeys a ha]
      rw [h1, h2, List.append_nil, hblock, List.map_map]
      rfl
    have htail :
        (rest.map (fun t => t.name)).map (fun k =>
            (k, (((groupRows (t :: rest)).filter (fun r => r.1 == k)).map (fun r => r.2)).foldl Nat.max 0))
          = (rest.map (fun t => t.name)).map (fun k =>
            (k, (((groupRows rest).filter (fun r => r.1 == k)).map (fun r => r.2)).foldl Nat.max 0)) := by
      apply List.map_congr_left
      intro k hk
      have hkne : k ≠ t.name := by
        intro hcon
        exact hnotin (hcon ▸ hk)
      have hbf : block.filter (fun r => r.1 == k) = [] := by
        rw [List.filter_eq_nil_iff]
        intro a ha
        rw [hblockall a ha]
        simp [Ne.symm hkne]
      rw [hrows, List.filter_append, hbf, List.nil_append]
    rw [hhead, htail]
    have hprev := ih hnodup2 hne2
    unfold groupMax at hprev
    rw [dedupFirst_groupRows rest hnodup2 hne2] at hprev
    rw [hprev]
    rfl

/-! Claim theorem (Last_Refresh group) -/

/-- C9: on a table with at least one partition `Last_Refresh` is the
maximum of its partitions' refresh times (and the empty-partition case
raises); `PyTables.Last_Refresh` grouped by table yields one row per
table holding that per-table maximum, and ungrouped one row per
partition. -/
theorem last_refresh_per_table (tabs : List TabTable)
    (hnodup : (tabs.map (fun t => t.name)).Nodup)
    (hne : ∀ t ∈ tabs, t.partitions ≠ []) :
    (∀ t : TabTable, t.partitions ≠ [] →
        ∃ m, PyTable.last_refresh t = some m
          ∧ m ∈ t.partitions.map (fun p => p.refreshedTime)
          ∧ ∀ p ∈ t.partitions, p.refreshedTime ≤ m)
    ∧ (∀ t : TabTable, t.partitions = [] → PyTable.last_refresh t = none)
    ∧ PyTables.last_refresh tabs true
        = Sum.inr (tabs.map (fun t => (t.name, tableMaxVal t)))
    ∧ (∀ t ∈ tabs, PyTable.last_refresh t = some (tableMaxVal t))
    ∧ PyTables.last_refresh tabs false = Sum.inl (lastRefreshRows tabs)
    ∧ (lastRefreshRows tabs).length
        = (tabs.map (fun t => t.partitions.length)).sum := by
  refine ⟨?_, ?_, ?_, ?_, ?_, ?_⟩
  · intro t ht
    cases hp : t.partitions.map (fun p => p.refreshedTime) with
    | nil => exact absurd (List.map_eq_nil_iff.mp hp) ht
    | cons x xs =>
      refine ⟨xs.foldl Nat.max x, ?_, ?_, ?_⟩
      · have hpp : t.partitions.map PyPartition.last_refresh = x :: xs := hp
        simp [PyTable.last_refresh, hpp, pyMax]
      · have hmax : (x :: xs).max? = some (xs.foldl Nat.max x) := rfl
        exact List.max?_mem (fun a b => max_choice a b) hmax
      · intro p hpmem
        have hmax : (x :: xs).max? = some (xs.foldl Nat.max x) := rfl
        have hle := (List.max?_le_iff (fun a b c => max_le_iff) hmax).mp le_rfl
        exact hle _ (hp ▸ List.mem_map.mpr ⟨p, hpmem, rfl⟩)
  · intro t ht
    simp [PyTable.last_refresh, ht, pyMax, PyPartition.last_refresh]
  · have hsel :
        (lastRefreshRows tabs).map (fun r => (r.1, r.2.2)) = groupRows tabs := by
      unfold lastRefreshRows groupRows
      rw [List.map_flatten, List.map_map]
      congr 1
      apply List.map_congr_left
      intro t _
      simp [Function.comp, List.map_map, PyPartition.last_refresh]
    simp only [PyTables.last_refresh, if_true]
    rw [hsel, groupMax_groupRows tabs hnodup hne]
  · intro t ht
    have hp := hne t ht
    cases hpp : t.partitions with
    | nil => exact absurd hpp hp
    | cons q qs =>
      have hval : PyTable.last_refresh t
          = pyMax ((q :: qs).map (fun p => p.refreshedTime)) := by
        unfold PyTable.last_refresh
        rw [hpp]
        rfl
      rw [hval]
      simp only [List.map_cons, pyMax, tableMaxVal, hpp, Option.some.injEq]
      rw [foldl_max_zero]
  · rfl
  · unfold lastRefreshRows
    rw [List.length_flatten, List.map_map]
    congr 1
    apply List.map_congr_left
    intro t _
    simp

/-- Closed-form check of C9 at a concrete two-table model. -/
theorem last_refresh_per_table_witness :
    PyTables.last_refresh
        [⟨"A", [], [⟨"p1", 5⟩, ⟨"p2", 9⟩], [], []⟩, ⟨"B", [], [⟨"q", 3⟩], [], []⟩] true
      = Sum.inr [("A", 9), ("B", 3)]
    ∧ PyTable.last_refresh ⟨"A", [], [⟨"p1", 5⟩, ⟨"p2", 9⟩], [], []⟩ = some 9 := by
  have h := last_refresh_per_table
    [⟨"A", [], [⟨"p1", 5⟩, ⟨"p2", 9⟩], [], []⟩, ⟨"B", [], [⟨"q", 3⟩], [], []⟩]
    (by decide) (by decide)
  constructor
  · rw [h.2.2.1]
    decide
  · have := h.2.2.2.1 ⟨"A", [], [⟨"p1", 5⟩, ⟨"p2", 9⟩], [], []⟩ (by decide)
    rw [this]
    decide

/-! Embedding of `backup_table` -/

/-- The clone of the named table after `backup_table` runs the `rename`
helper over its columns, partitions, measures and hierarchies and then
renames the clone itself: every name gets the `_backup` suffix. -/
def backup_clone (t : TabTable) : TabTable :=
  { name := t.name ++ "_backup"
    columns := t.columns.map (fun c => { c with name := c.name ++ "_backup" })
    partitions := t.partitions.map (fun p => { p with name := p.name ++ "_backup" })
    measures := t.measures.map (fun msr => { msr with name := msr.name ++ "_backup" })
    hierarchies := t.hierarchies.map (fun h => { h with name := h.name ++ "_backup" }) }

/-- Re-pointing of a cloned relationship in `backup_table`: the `if`
branch moves the To endpoint to the clone's suffixed column, the `elif`
branch the From endpoint; a failed column `find` produces `None`, whose
use by `set_ToColumn`/`set_FromColumn` is modelled as failure. -/
def repoint_relationship (table : TabTable) (origName : String)
    (r : TabRelationship) : Option TabRelationship :=
  if r.toTable == origName then
    (table.columns.find? (fun c => c.name == r.toColumn ++ "_backup")).map
      (fun c => { r with toTable := table.name, toColumn := c.name })
  else if r.fromTable == origName then
    (table.columns.find? (fun c => c.name == r.fromColumn ++ "_backup")).map
      (fun c => { r with fromTable := table.name, fromColumn := c.name })
  else some r

/-- Clone-and-repoint of one role table permission inside
`clone_role_permissions`: `set_Table` points the clone at the backup
table and each column permission is re-pointed at the backup table's
suffixed column, found through the model-wide `Tables.find`. -/
def repoint_permission (m2tables : List TabTable) (table : TabTable)
    (tp : TabTablePermission) : Option TabTablePermission := do
  let t ← m2tables.find? (fun tt => tt.name == table.name)
  let cols ← tp.columnNames.mapM (fun cn =>
    (t.columns.find? (fun c => c.name == cn ++ "_backup")).map (fun c => c.name))
  pure { tableName := table.name, columnNames := cols }

/-- One pass of the `for role in roles` body of `clone_role_permissions`
on a single role object: clones the permissions matching the table name,
re-points them and appends them to the role. -/
def role_body (m2tables : List TabTable) (table : TabTable) (table_str : String)
    (role : TabRole) : Option TabRole := do
  let newTps ← (role.tablePermissions.filter
      (fun tp => tp.tableName == table_str)).mapM (repoint_permission m2tables table)
  pure { role with tablePermissions := role.tablePermissions ++ newTps }

/-- Iterated application of a fallible step: the `roles` list of
`clone_role_permissions` repeats each role object once per matching
permission, so its body runs that many times on the same object. -/
def applyN {α : Type} (f : α → Option α) : Nat → α → Option α
  | 0, a => some a
  | n + 1, a => (f a).bind (applyN f n)

/-- The `clone_role_permissions` helper of `backup_table` over all
roles of the model. -/
def clone_role_permissions (m2 : TabModel) (table : TabTable) (table_str : String) :
    Option (List TabRole) :=
  m2.roles.mapM (fun role =>
    applyN (role_body m2.tables table table_str)
      ((role.tablePermissions.filter (fun tp => tp.tableName == table_str)).length) role)

/-- `Tabular.backup_table`: clones the named table, appends `_backup` to
every nested object name and to the clone itself, adds the clone to the
model, clones, renames and re-points the relationships touching the
original table, clones and re-points the matching role table
permissions, then reloads, refreshes the clone and saves.  `none` models
a native exception (missing table or failed column lookup). -/
def Tabular.backup_table (m : TabModel) (table_str : String) :
    Option (TabModel × List NCall × Bool) := do
  let t0 ← m.tables.find? (fun t => t.name == table_str)
  let table := backup_clone t0
  let m1 : TabModel := { m with tables := m.tables ++ [table] }
  let origName := remove_suffix table.name "_backup"
  let rels := m1.relationships.filter
    (fun r => r.toTable == origName || r.fromTable == origName)
  let rels1 := rels.map (fun r => { r with name := r.name ++ "_backup" })
  let rels2 ← rels1.mapM (repoint_relationship table origName)
  let m2 : TabModel := { m1 with relationships := m1.relationships ++ rels2 }
  let roles2 ← clone_role_permissions m2 table table_str
  let m3 : TabModel := { m2 with roles := roles2 }
  pure (m3,
    [NCall.databaseRefresh, NCall.refreshTable table.name, NCall.saveChanges], true)

/-- Declarative description of a re-pointed relationship clone of
`backup_table`. -/
def backup_rel_expected (table_str : String) (r : TabRelationship) : TabRelationship :=
  if r.toTable = table_str then
    { r with
        name := r.name ++ "_backup"
        toTable := table_str ++ "_backup"
        toColumn := r.toColumn ++ "_backup" }
  else
    { r with
        name := r.name ++ "_backup"
        fromTable := table_str ++ "_backup"
        fromColumn := r.fromColumn ++ "_backup" }

/-- Declarative description of a role after `clone_role_permissions`:
the permissions on the original table are cloned, pointed at the backup
table and appended. -/
def backup_role_expected (table_str : String) (role : TabRole) : TabRole :=
  { role with
      tablePermissions := role.tablePermissions ++
        (role.tablePermissions.filter (fun tp => tp.tableName == table_str)).map
          (fun tp =>
            { tableName := table_str ++ "_backup"
              columnNames := tp.columnNames.map (fun cn => cn ++ "_backup") }) }

/-! Embedding of `revert_table` -/

/-- One pass of the `for role in roles` body of
`remove_role_permissions`: every table permission matching the original
table name is removed from the role. -/
def revert_role_body (table_str : String) (role : TabRole) : TabRole :=
  { role with
      tablePermissions := role.tablePermissions.filter
        (fun tp => !(tp.tableName == table_str)) }

/-- The backup table after `revert_table` denames its columns (the
row-number column excepted), partitions, measures and hierarchies and
renames the table itself, stripping the `_backup` suffix. -/
def revert_renamed (backup : TabTable) : TabTable :=
  { name := remove_suffix backup.name "_backup"
    columns := backup.columns.map (fun c =>
      if c.isRowNumber then c else { c with name := remove_suffix c.name "_backup" })
    partitions := backup.partitions.map (fun p =>
      { p with name := remove_suffix p.name "_backup" })
    measures := backup.measures.map (fun msr =>
      { msr with name := remove_suffix msr.name "_backup" })
    hierarchies := backup.hierarchies.map (fun h =>
      { h with name := remove_suffix h.name "_backup" }) }

/-- `Tabular.revert_table`: finds the original and backup tables,
removes the relationships referencing the original, removes the original
table, removes its role table permissions (the duplicated `roles` list
makes the body run once per matching permission; repeats are no-ops),
then strips the `_backup` suffix from the backup's columns (row-number
columns excepted), partitions, measures, hierarchies, the relationships
referencing the backup, and the backup table itself, and saves.  The
dename helper also issues a native save per renamed item; the trace
records the final `save_changes()`.  `none` models the native exception
when a table is missing. -/
def Tabular.revert_table (m : TabModel) (table_str : String) :
    Option (TabModel × List NCall × Bool) := do
  let main ← m.tables.find? (fun t => t.name == table_str)
  let backup ← m.tables.find? (fun t => t.name == table_str ++ "_backup")
  let rels1 := m.relationships.filter
    (fun r => !(r.toTable == main.name || r.fromTable == main.name))
  let tables1 := m.tables.erase main
  let roles1 := m.roles.map (fun role =>
    (revert_role_body table_str)^[(role.tablePermissions.filter
        (fun tp => tp.tableName == table_str)).length] role)
  let tables2 := tables1.map (fun t => if t == backup then revert_renamed backup else t)
  let rels2 := rels1.map (fun r =>
    if r.toTable == backup.name || r.fromTable == backup.name then
      { r with name := remove_suffix r.name "_backup" }
    else r)
  pure ({ tables := tables2, relationships := rels2, roles := roles1 },
    [NCall.saveChanges], true)

/-! Helper lemmas for backup and revert -/

theorem mapM_eq_some_map {α β : Type} (f : α → Option β) (g : α → β) :
    ∀ l : List α, (∀ x ∈ l, f x = some (g x)) → l.mapM f = some (l.map g) := by
  intro l
  induction l with
  | nil => intro _; rfl
  | cons x xs ih =>
    intro h
    rw [List.mapM_cons, h x (List.mem_cons_self _ _),
      ih (fun y hy => h y (List.mem_cons_of_mem _ hy))]
    rfl

theorem revert_role_body_idem (table_str : String) (role : TabRole) :
    revert_role_body table_str (revert_role_body table_str role)
      = revert_role_body table_str role := by
  unfold revert_role_body
  simp [List.filter_filter]

theorem revert_role_iterate (table_str : String) (role : TabRole) :
    (revert_role_body table_str)^[(role.tablePermissions.filter
        (fun tp => tp.tableName == table_str)).length] role
      = revert_role_body table_str role := by
  cases hn : (role.tablePermissions.filter (fun tp => tp.tableName == table_str)).length with
  | zero =>
    have hnil : role.tablePermissions.filter (fun tp => tp.tableName == table_str) = [] :=
      List.length_eq_zero.mp hn
    have hall : ∀ tp ∈ role.tablePermissions, (tp.tableName == table_str) = false := by
      intro tp htp
      have := List.filter_eq_nil_iff.mp hnil tp htp
      simpa using this
    unfold revert_role_body
    simp only [Function.iterate_zero, id]
    have : role.tablePermissions.filter (fun tp => !(tp.tableName == table_str))
        = role.tablePermissions := by
      rw [List.filter_eq_self]
      intro tp htp
      simp [hall tp htp]
    rw [this]
  | succ n =>
    rw [Function.iterate_succ_apply]
    have hfix : ∀ (k : Nat) (r : TabRole),
        (revert_role_body table_str)^[k] (revert_role_body table_str r)
          = revert_role_body table_str r := by
      intro k
      induction k with
      | zero => intro r; rfl
      | succ j ihj =>
        intro r
        rw [Function.iterate_succ_apply, revert_role_body_idem]
        exact ihj r
    exact hfix n role

theorem bind_some_reduce {α β : Type} (a : α) (f : α → Option β) :
    ((some a : Option α) >>= f) = f a := rfl

theorem mapM_map_eq_some {α β γ : Type} (h : α → β) (f : β → Option γ) (g : α → γ) :
    ∀ l : List α, (∀ x ∈ l, f (h x) = some (g x)) → (l.map h).mapM f = some (l.map g) := by
  intro l
  induction l with
  | nil => intro _; rfl
  | cons x xs ih =>
    intro hx
    rw [List.map_cons, List.mapM_cons, hx x (List.mem_cons_self _ _),
      ih (fun y hy => hx y (List.mem_cons_of_mem _ hy))]
    rfl

theorem clone_column_find (t0 : TabTable) (s : String)
    (hcol : ∃ c ∈ t0.columns, c.name = s) :
    ∃ c', (backup_clone t0).columns.find? (fun c => c.name == s ++ "_backup") = some c'
      ∧ c'.name = s ++ "_backup" := by
  obtain ⟨c, hcmem, rfl⟩ := hcol
  have hex : ∃ cc ∈ (backup_clone t0).columns, (cc.name == c.name ++ "_backup") = true := by
    refine ⟨{ c with name := c.name ++ "_backup" }, ?_, by simp⟩
    unfold backup_clone
    exact List.mem_map.mpr ⟨c, hcmem, rfl⟩
  have hsome := List.find?_isSome.mpr hex
  obtain ⟨c', hc'⟩ := Option.isSome_iff_exists.mp hsome
  refine ⟨c', hc', ?_⟩
  have hp := List.find?_some hc'
  simpa using hp

/-! Claim theorem C4 -/

/-- C4: when the original table and its `_backup` copy both exist,
`revert_table` removes the original table, the relationships referencing
it and its role table permissions, strips the `_backup` suffix from the
backup's columns (row-number columns excepted), partitions, measures,
hierarchies and relationships, renames the backup table, saves and
returns True. -/
theorem revert_table_spec (m : TabModel) (table_str : String) (main backup : TabTable)
    (hmain : m.tables.find? (fun t => t.name == table_str) = some main)
    (hbackup : m.tables.find? (fun t => t.name == table_str ++ "_backup") = some backup) :
    Tabular.revert_table m table_str = some
      ({ tables := (m.tables.erase main).map
            (fun t => if t == backup then revert_renamed backup else t)
         relationships := (m.relationships.filter
             (fun r => !(r.toTable == table_str || r.fromTable == table_str))).map
             (fun r =>
               if r.toTable == table_str ++ "_backup"
                   || r.fromTable == table_str ++ "_backup" then
                 { r with name := remove_suffix r.name "_backup" }
               else r)
         roles := m.roles.map (revert_role_body table_str) },
       [NCall.saveChanges], true) := by
  have hmn : main.name = table_str := by
    have hp := List.find?_some hmain
    simpa using hp
  have hbn : backup.name = table_str ++ "_backup" := by
    have hp := List.find?_some hbackup
    simpa using hp
  have hroles : m.roles.map (fun role =>
        (revert_role_body table_str)^[(role.tablePermissions.filter
            (fun tp => tp.tableName == table_str)).length] role)
      = m.roles.map (revert_role_body table_str) :=
    List.map_congr_left (fun role _ => revert_role_iterate table_str role)
  unfold Tabular.revert_table
  rw [hmain, bind_some_reduce, hbackup, bind_some_reduce, hroles, hmn, hbn]
  rfl

/-- Closed-form check of C4 at a concrete model holding a table and its
backup. -/
theorem revert_table_spec_witness :
    Tabular.revert_table
        ⟨[⟨"T", [⟨"c", false⟩], [⟨"p", 3⟩], [], []⟩,
          ⟨"T_backup", [⟨"c_backup", false⟩], [⟨"p_backup", 7⟩], [], []⟩],
         [⟨"R", "T", "c", "U", "u"⟩],
         [⟨"role1", [⟨"T", ["c"]⟩]⟩]⟩ "T"
      = some (⟨[⟨"T", [⟨"c", false⟩], [⟨"p", 7⟩], [], []⟩], [], [⟨"role1", []⟩]⟩,
          [NCall.saveChanges], true) := by
  have h := revert_table_spec
    ⟨[⟨"T", [⟨"c", false⟩], [⟨"p", 3⟩], [], []⟩,
      ⟨"T_backup", [⟨"c_backup", false⟩], [⟨"p_backup", 7⟩], [], []⟩],
     [⟨"R", "T", "c", "U", "u"⟩],
     [⟨"role1", [⟨"T", ["c"]⟩]⟩]⟩ "T"
    ⟨"T", [⟨"c", false⟩], [⟨"p", 3⟩], [], []⟩
    ⟨"T_backup", [⟨"c_backup", false⟩], [⟨"p_backup", 7⟩], [], []⟩
    (by decide) (by decide)
  rw [h]
  decide

/-! Claim theorem C3 -/

/-- C3: for a table present in the model (with engine-maintained
referential integrity for the relationships and role permissions that
touch it, and no name collision on the backup name), `backup_table`
adds a clone with `_backup` appended to the table and all its nested
object names, appends re-pointed clones of the relationships touching
the original table, appends re-pointed clones of the matching role
table permissions, refreshes the clone, saves and returns True. -/
theorem backup_table_spec (m : TabModel) (table_str : String) (t0 : TabTable)
    (hfind : m.tables.find? (fun t => t.name == table_str) = some t0)
    (hfresh : ∀ t ∈ m.tables, t.name ≠ table_str ++ "_backup")
    (hrel : ∀ r ∈ m.relationships,
        (r.toTable = table_str → ∃ c ∈ t0.columns, c.name = r.toColumn)
        ∧ (r.toTable ≠ table_str → r.fromTable = table_str →
            ∃ c ∈ t0.columns, c.name = r.fromColumn))
    (hrole : ∀ role ∈ m.roles,
        (role.tablePermissions.filter (fun tp => tp.tableName == table_str)).length ≤ 1
        ∧ ∀ tp ∈ role.tablePermissions, tp.tableName = table_str →
            ∀ cn ∈ tp.columnNames, ∃ c ∈ t0.columns, c.name = cn) :
    Tabular.backup_table m table_str = some
      ({ tables := m.tables ++ [backup_clone t0]
         relationships := m.relationships ++
           (m.relationships.filter
             (fun r => r.toTable == table_str || r.fromTable == table_str)).map
             (backup_rel_expected table_str)
         roles := m.roles.map (backup_role_expected table_str) },
       [NCall.databaseRefresh, NCall.refreshTable (table_str ++ "_backup"),
        NCall.saveChanges], true) := by
  have ht0 : t0.name = table_str := by
    have hp := List.find?_some hfind
    simpa using hp
  have htn : (backup_clone t0).name = table_str ++ "_backup" := by
    simp [backup_clone, ht0]
  have horig : remove_suffix (backup_clone t0).name "_backup" = table_str := by
    rw [htn]
    exact remove_suffix_append table_str "_backup"
  have hrelpt : ∀ r ∈ m.relationships.filter
      (fun r => r.toTable == table_str || r.fromTable == table_str),
      repoint_relationship (backup_clone t0) table_str { r with name := r.name ++ "_backup" }
        = some (backup_rel_expected table_str r) := by
    intro r hr
    have hmem := (List.mem_filter.mp hr).1
    have hpred := (List.mem_filter.mp hr).2
    by_cases hto : r.toTable = table_str
    · obtain ⟨c', hcfind, hcname⟩ := clone_column_find t0 r.toColumn ((hrel r hmem).1 hto)
      unfold repoint_relationship backup_rel_expected
      simp [hto, hcfind, hcname, htn]
    · have hfrom : r.fromTable = table_str := by
        rcases (Bool.or_eq_true _ _).mp hpred with h1 | h2
        · exact absurd (by simpa using h1) hto
        · simpa using h2
      obtain ⟨c', hcfind, hcname⟩ :=
        clone_column_find t0 r.fromColumn ((hrel r hmem).2 hto hfrom)
      unfold repoint_relationship backup_rel_expected
      have htof : (r.toTable == table_str) = false := beq_eq_false_iff_ne.mpr hto
      simp [htof, hto, hfrom, hcfind, hcname, htn]
  have hrels2 := mapM_map_eq_some
    (fun r => { r with name := r.name ++ "_backup" })
    (repoint_relationship (backup_clone t0) table_str)
    (backup_rel_expected table_str)
    (m.relationships.filter (fun r => r.toTable == table_str || r.fromTable == table_str))
    hrelpt
  have hfindtable : (m.tables ++ [backup_clone t0]).find?
      (fun tt => tt.name == (backup_clone t0).name) = some (backup_clone t0) := by
    rw [List.find?_append]
    have h1 : m.tables.find? (fun tt => tt.name == (backup_clone t0).name) = none := by
      rw [List.find?_eq_none]
      intro t htm
      rw [htn]
      simp [hfresh t htm]
    rw [h1]
    simp [List.find?]
  have hrolespt : ∀ role ∈ m.roles,
      applyN (role_body (m.tables ++ [backup_clone t0]) (backup_clone t0) table_str)
        ((role.tablePermissions.filter (fun tp => tp.tableName == table_str)).length) role
        = some (backup_role_expected table_str role) := by
    intro role hr
    obtain ⟨hlen, hcols⟩ := hrole role hr
    cases hc : (role.tablePermissions.filter (fun tp => tp.tableName == table_str)).length with
    | zero =>
      have hnil := List.length_eq_zero.mp hc
      have hexp : backup_role_expected table_str role = role := by
        unfold backup_role_expected
        rw [hnil]
        simp
      simp [applyN, hexp]
    | succ n =>
      rw [hc] at hlen
      have hn0 : n = 0 := by omega
      subst hn0
      obtain ⟨tp, htp⟩ := List.length_eq_one.mp hc
      have htpmem : tp ∈ role.tablePermissions ∧ (tp.tableName == table_str) = true := by
        have hin : tp ∈ role.tablePermissions.filter (fun tp => tp.tableName == table_str) := by
          rw [htp]
          exact List.mem_cons_self _ _
        exact List.mem_filter.mp hin
      have htpname : tp.tableName = table_str := by simpa using htpmem.2
      have hcolspt : ∀ cn ∈ tp.columnNames,
          ((backup_clone t0).columns.find? (fun c => c.name == cn ++ "_backup")).map
              (fun c => c.name)
            = some (cn ++ "_backup") := by
        intro cn hcn
        obtain ⟨c', hfindc, hnamec⟩ :=
          clone_column_find t0 cn (hcols tp htpmem.1 htpname cn hcn)
        rw [hfindc]
        simp [hnamec]
      have hcolsmapM := mapM_eq_some_map
        (fun cn => ((backup_clone t0).columns.find?
            (fun c => c.name == cn ++ "_backup")).map (fun c => c.name))
        (fun cn => cn ++ "_backup") tp.columnNames hcolspt
      have hbody : role_body (m.tables ++ [backup_clone t0]) (backup_clone t0) table_str role
          = some { role with tablePermissions := role.tablePermissions ++
              [{ tableName := (backup_clone t0).name
                 columnNames := tp.columnNames.map (fun cn => cn ++ "_backup") }] } := by
        unfold role_body repoint_permission
        rw [htp, List.mapM_cons, hfindtable, bind_some_reduce, hcolsmapM]
        rfl
      have h1 : applyN (role_body (m.tables ++ [backup_clone t0])
            (backup_clone t0) table_str) 1 role
          = (role_body (m.tables ++ [backup_clone t0]) (backup_clone t0) table_str role).bind
              (applyN (role_body (m.tables ++ [backup_clone t0])
                (backup_clone t0) table_str) 0) := rfl
      rw [h1, hbody]
      unfold backup_role_expected
      rw [htp, htn]
      rfl
  have hroles2 : clone_role_permissions
      { tables := m.tables ++ [backup_clone t0]
        relationships := m.relationships ++
          (m.relationships.filter
            (fun r => r.toTable == table_str || r.fromTable == table_str)).map
            (backup_rel_expected table_str)
        roles := m.roles }
      (backup_clone t0) table_str = some (m.roles.map (backup_role_expected table_str)) := by
    unfold clone_role_permissions
    exact mapM_eq_some_map _ _ _ hrolespt
  unfold Tabular.backup_table
  rw [hfind, bind_some_reduce]
  simp only []
  rw [horig, hrels2, bind_some_reduce, hroles2, bind_some_reduce, htn]
  rfl

/-- Closed-form check of C3 at a concrete model with a relationship and
a role permission touching the backed-up table. -/
theorem backup_table_spec_witness :
    Tabular.backup_table
        ⟨[⟨"T", [⟨"c", false⟩], [⟨"p", 1⟩], [⟨"m1"⟩], [⟨"h1"⟩]⟩,
          ⟨"U", [⟨"u", false⟩], [], [], []⟩],
         [⟨"R", "U", "u", "T", "c"⟩],
         [⟨"role1", [⟨"T", ["c"]⟩]⟩]⟩ "T"
      = some
        (⟨[⟨"T", [⟨"c", false⟩], [⟨"p", 1⟩], [⟨"m1"⟩], [⟨"h1"⟩]⟩,
           ⟨"U", [⟨"u", false⟩], [], [], []⟩,
           ⟨"T_backup", [⟨"c_backup", false⟩], [⟨"p_backup", 1⟩],
            [⟨"m1_backup"⟩], [⟨"h1_backup"⟩]⟩],
          [⟨"R", "U", "u", "T", "c"⟩,
           ⟨"R_backup", "U", "u", "T_backup", "c_backup"⟩],
          [⟨"role1", [⟨"T", ["c"]⟩, ⟨"T_backup", ["c_backup"]⟩]⟩]⟩,
         [NCall.databaseRefresh, NCall.refreshTable "T_backup", NCall.saveChanges],
         true) := by
  have h := backup_table_spec
    ⟨[⟨"T", [⟨"c", false⟩], [⟨"p", 1⟩], [⟨"m1"⟩], [⟨"h1"⟩]⟩,
      ⟨"U", [⟨"u", false⟩], [], [], []⟩],
     [⟨"R", "U", "u", "T", "c"⟩],
     [⟨"role1", [⟨"T", ["c"]⟩]⟩]⟩ "T"
    ⟨"T", [⟨"c", false⟩], [⟨"p", 1⟩], [⟨"m1"⟩], [⟨"h1"⟩]⟩
    (by decide) (by decide) (by decide) (by decide)
  rw [h]
  decide

end PyTabular
